import Mathlib

/-!
# Verification of the detection-alignment layer of `camibrate/boards.py`

This file gives a shallow embedding of the frame-merging / point-extraction /
pose-vector-extraction layer of `camibrate/boards.py` and proves (or refutes)
the frozen claims about it.

Modelling conventions:

* A floating-point coordinate is either NaN or a finite value.  The functions
  under study never do arithmetic on coordinate values (they only copy them
  and test `np.isnan`), so a coordinate is modelled as `Option Int`
  (`none` = NaN, `some v` = a finite value).
* A Python detection record (a `dict`) becomes the structure `Row`.  A key
  that may be absent is modelled with an outer `Option`; for `rvec`/`tvec`
  the stored value may itself be Python `None`, hence `Option (Option Vec3)`
  (`none` = key absent, `some none` = key present holding `None`,
  `some (some v)` = key present holding a 3-vector).
* A merged frame group (`dict` from camera name to record, iterated in
  insertion order) becomes an association list `FrameGroup` in camera-name order.
  Camera names and frame numbers are modelled as `Nat` (the code only needs
  hashability and a total order on frame keys).
* Python exceptions are modelled with `Except PyErr`; in-place mutation of
  records (the pose cache-back in `extract_rtvecs`) is modelled by explicit
  state passing (the updated groups are returned).
* NumPy's `(C, N, k)` output arrays are represented observation-major, i.e.
  as the list of the `N` columns, each column being the list of `C`
  per-camera entries.  This is the transpose of the NumPy layout, an
  information-preserving representation that keeps `N` observable even when
  `C = 0`.
* NumPy broadcasting of mis-shaped assignments is not modelled: an
  assignment whose right-hand side does not have exactly the destination
  shape is modelled as an error, and all theorems about well-shaped data
  carry the corresponding length hypotheses.
-/

/-- Python exception classes raised by the code under study. -/
inductive PyErr where
  | assertionError
  | valueError
  | typeError
  | indexError
  | nameError
  | attributeError
deriving DecidableEq, Repr

/-- One floating-point coordinate: `none` is NaN, `some v` a finite value. -/
abbrev Coord := Option Int

/-- A 2D point (one row of an `(N, 2)` float array). -/
abbrev Point2 := Coord × Coord

/-- A 3D point (one row of an `(N, 3)` float array). -/
abbrev Point3 := Coord × Coord × Coord

/-- An all-NaN 2D point. -/
def nanP2 : Point2 := (none, none)

/-- An all-NaN 3D point. -/
def nanP3 : Point3 := (none, none, none)

/-- A 3-vector as stored in `rvec` / `tvec`. -/
abbrev Vec3 := Coord × Coord × Coord

/-- A detection record: one camera's observation for one frame
(`{'framenum': ..., 'corners': ..., 'ids': ..., 'filled': ..., 'rvec': ...,
'tvec': ...}` in the Python code).  `rvec`/`tvec` use a double `Option`:
the outer layer models key presence, the inner layer models the value
being Python `None`. -/
structure Row where
  framenum : Nat
  corners : Option (List Point2) := none
  ids : Option (List Nat) := none
  filled : List Point2 := []
  rvec : Option (Option Vec3) := none
  tvec : Option (Option Vec3) := none
deriving DecidableEq, Repr

/-- A merged frame group: association list from camera name to record,
in camera-name iteration order (a Python `dict`). -/
abbrev FrameGroup := List (Nat × Row)

/-- Lookup of a camera name in a merged group (`row[cname]` /
`cname in row`). -/
def groupLookup (g : FrameGroup) (c : Nat) : Option Row :=
  (g.find? (fun e => e.1 == c)).map Prod.snd

/-- In-place replacement of the record stored under a camera name
(models mutation of the record object held by the group's dict). -/
def groupUpdate : FrameGroup → Nat → Row → FrameGroup
  | [], _, _ => []
  | (c', r') :: rest, c, r =>
    if c' == c then (c', r) :: rest else (c', r') :: groupUpdate rest c r

/-- Reduction of an `Except` bind on a success value. -/
theorem exceptBind_ok {a b : Type} (x : a) (f : a -> Except PyErr b) :
    (Except.ok x >>= f) = f x := rfl

/-- Reduction of an `Except` bind on an error value. -/
theorem exceptBind_error {a b : Type} (e : PyErr) (f : a -> Except PyErr b) :
    ((Except.error e : Except PyErr a) >>= f) = Except.error e := rfl

/-! ## `merge_rows` (boards.py lines 56–87) -/

/-- The sequence of dictionary writes `rows_dict[cname][num] = r` performed
by `merge_rows`, in program order: one `(cname, r)` per record, cameras in
`zip(cam_names, all_rows)` order, records in list order. -/
def insertionsOf (pairs : List (Nat × List Row)) : List (Nat × Row) :=
  pairs.flatMap (fun p => p.2.map (fun r => (p.1, r)))

/-- The final value of `rows_dict[cname][num]`: the last write wins.
`none` when camera `c` has no record with frame number `num`. -/
def lastWrite (ins : List (Nat × Row)) (c num : Nat) : Option Row :=
  ((ins.filter (fun x => x.1 == c && x.2.framenum == num)).getLast?).map Prod.snd

/-- The sorted list of distinct frame numbers (`sorted(framenums)` where
`framenums` is the set of all observed frame numbers). -/
def mergedKeys (pairs : List (Nat × List Row)) : List Nat :=
  (((insertionsOf pairs).map (fun x => x.2.framenum)).dedup).insertionSort (· ≤ ·)

/-- The merged group built for one frame number: iterate `cam_names` in
order and keep the cameras whose dict contains the frame number. -/
def mergeGroup (pairs : List (Nat × List Row)) (num : Nat) : FrameGroup :=
  (pairs.map Prod.fst).filterMap
    (fun c => (lastWrite (insertionsOf pairs) c num).map (fun r => (c, r)))

/-- The body of `merge_rows` once camera names are fixed. -/
def mergeRowsCore (pairs : List (Nat × List Row)) : List FrameGroup :=
  (mergedKeys pairs).map (mergeGroup pairs)

/-- `merge_rows(all_rows, cam_names)`.  The `assert` on the name count is
the error the spec's taxonomy calls `ConfigurationError` (an
`AssertionError` at runtime).  When `cam_names` is `None` it defaults to
`range(len(all_rows))`. -/
def mergeRows (allRows : List (List Row)) (camNames? : Option (List Nat)) :
    Except PyErr (List FrameGroup) :=
  match camNames? with
  | some cns =>
    if allRows.length = cns.length then
      Except.ok (mergeRowsCore (cns.zip allRows))
    else
      Except.error PyErr.assertionError
  | none => Except.ok (mergeRowsCore ((List.range allRows.length).zip allRows))

/-- The default pairing used when `cam_names is None`:
`zip(range(len(all_rows)), all_rows)`. -/
def pairsOf (allRows : List (List Row)) : List (Nat × List Row) :=
  (List.range allRows.length).zip allRows

/-! ### Basic lemmas about groups and `merge_rows` -/

theorem groupLookup_nil (c : Nat) : groupLookup [] c = none := rfl

theorem groupLookup_cons (e : Nat × Row) (g : FrameGroup) (c : Nat) :
    groupLookup (e :: g) c =
      if e.1 == c then some e.2 else groupLookup g c := by
  simp only [groupLookup, List.find?]
  cases h : (e.1 == c) <;> simp [h]

/-- `groupLookup` over the scatter `names.filterMap (c ↦ (F c).map (c, ·))`
is pointwise `F` on members of `names`. -/
theorem groupLookup_filterMap (names : List Nat) (F : Nat → Option Row) (c : Nat) :
    groupLookup (names.filterMap (fun c' => (F c').map (fun r => (c', r)))) c =
      if c ∈ names then F c else none := by
  induction names with
  | nil => simp [groupLookup]
  | cons a rest ih =>
    by_cases hc : c = a
    · subst hc
      cases hFa : F c with
      | none =>
        simp only [List.filterMap_cons, hFa, Option.map_none']
        rw [ih]
        simp [hFa]
      | some r =>
        simp only [List.filterMap_cons, hFa, Option.map_some']
        rw [groupLookup_cons]
        simp [hFa]
    · cases hFa : F a with
      | none =>
        simp only [List.filterMap_cons, hFa, Option.map_none']
        rw [ih]
        simp [List.mem_cons, hc]
      | some r =>
        simp only [List.filterMap_cons, hFa, Option.map_some']
        rw [groupLookup_cons, ih]
        have hba : (a == c) = false := by
          simp only [beq_eq_false_iff_ne, ne_eq]
          exact fun e => hc e.symm
        simp [hba, List.mem_cons, hc]

/-- Membership of a camera in a merged group: exactly the cameras that have
a record for the frame number. -/
theorem mem_mergeGroup (pairs : List (Nat × List Row)) (num c : Nat) :
    (∃ r, (c, r) ∈ mergeGroup pairs num) ↔
      c ∈ pairs.map Prod.fst ∧ lastWrite (insertionsOf pairs) c num ≠ none := by
  constructor
  · rintro ⟨r, hr⟩
    simp only [mergeGroup, List.mem_filterMap] at hr
    obtain ⟨a, ha, hfa⟩ := hr
    cases hla : lastWrite (insertionsOf pairs) c num with
    | none =>
      cases hla' : lastWrite (insertionsOf pairs) a num with
      | none => simp [hla'] at hfa
      | some r' =>
        simp [hla'] at hfa
        obtain ⟨hac, _⟩ := hfa
        subst hac
        simp [hla] at hla'
    | some r' =>
      cases hla' : lastWrite (insertionsOf pairs) a num with
      | none => simp [hla'] at hfa
      | some r'' =>
        simp [hla'] at hfa
        obtain ⟨hac, _⟩ := hfa
        subst hac
        exact ⟨ha, by simp [hla]⟩
  · rintro ⟨hc, hlw⟩
    cases hla : lastWrite (insertionsOf pairs) c num with
    | none => exact absurd hla hlw
    | some r =>
      refine ⟨r, ?_⟩
      simp only [mergeGroup, List.mem_filterMap]
      exact ⟨c, hc, by simp [hla]⟩

/-- Lookup in a merged group is the last write for that camera/frame. -/
theorem groupLookup_mergeGroup (pairs : List (Nat × List Row)) (num c : Nat) :
    groupLookup (mergeGroup pairs num) c =
      if c ∈ pairs.map Prod.fst then lastWrite (insertionsOf pairs) c num
      else none := by
  rw [mergeGroup, groupLookup_filterMap]

/-- The merged frame-number axis is strictly ascending (sorted and
duplicate-free). -/
theorem mergedKeys_sorted (pairs : List (Nat × List Row)) :
    (mergedKeys pairs).Sorted (· < ·) := by
  have hs : (mergedKeys pairs).Sorted (· ≤ ·) :=
    List.sorted_insertionSort _ _
  have hperm :
      List.Perm (mergedKeys pairs)
        (((insertionsOf pairs).map (fun x => x.2.framenum)).dedup) :=
    List.perm_insertionSort _ _
  have hnd : (mergedKeys pairs).Nodup :=
    hperm.nodup_iff.mpr (List.nodup_dedup _)
  exact hs.lt_of_le hnd

/-- The merged frame numbers are exactly the frame numbers occurring in some
camera's record list. -/
theorem mem_mergedKeys (pairs : List (Nat × List Row)) (k : Nat) :
    k ∈ mergedKeys pairs ↔ ∃ p, p ∈ pairs ∧ ∃ r, r ∈ p.2 ∧ r.framenum = k := by
  unfold mergedKeys
  rw [List.mem_insertionSort, List.mem_dedup]
  constructor
  · intro h
    obtain ⟨x, hx, hk⟩ := List.mem_map.mp h
    obtain ⟨p, hp, hxp⟩ := List.mem_flatMap.mp hx
    obtain ⟨r, hr, hrx⟩ := List.mem_map.mp hxp
    refine ⟨p, hp, r, hr, ?_⟩
    rw [← hk, ← hrx]
  · rintro ⟨p, hp, r, hr, hk⟩
    exact List.mem_map.mpr ⟨(p.1, r),
      List.mem_flatMap.mpr ⟨p, hp, List.mem_map.mpr ⟨r, hr, rfl⟩⟩, hk⟩

theorem pairsOf_eq_enum (allRows : List (List Row)) :
    pairsOf allRows = allRows.enum :=
  (List.enum_eq_zip_range allRows).symm

theorem pairsOf_map_fst (allRows : List (List Row)) :
    (pairsOf allRows).map Prod.fst = List.range allRows.length := by
  rw [pairsOf_eq_enum]
  exact List.enum_map_fst allRows

/-- Claim C2.  `merge_rows` with default camera names never fails, and
returns one merged group per distinct frame number across all cameras, in
ascending frame-number order; a merged group contains exactly the cameras
holding a record for that frame number, each mapped to its last-written
record (duplicate frame numbers within one camera resolve
last-write-wins). -/
theorem merge_rows_spec (allRows : List (List Row)) :
    mergeRows allRows none =
      Except.ok ((mergedKeys (pairsOf allRows)).map (mergeGroup (pairsOf allRows)))
    ∧ (mergedKeys (pairsOf allRows)).Sorted (· < ·)
    ∧ (∀ k, k ∈ mergedKeys (pairsOf allRows) ↔
        ∃ rows, rows ∈ allRows ∧ ∃ r, r ∈ rows ∧ r.framenum = k)
    ∧ (∀ num c, c < allRows.length →
        groupLookup (mergeGroup (pairsOf allRows) num) c =
          lastWrite (insertionsOf (pairsOf allRows)) c num)
    ∧ (∀ num c, (∃ r, (c, r) ∈ mergeGroup (pairsOf allRows) num) ↔
        (c < allRows.length ∧
          lastWrite (insertionsOf (pairsOf allRows)) c num ≠ none)) := by
  refine ⟨rfl, mergedKeys_sorted _, ?_, ?_, ?_⟩
  · intro k
    rw [mem_mergedKeys]
    constructor
    · rintro ⟨p, hp, r, hr, hk⟩
      refine ⟨p.2, ?_, r, hr, hk⟩
      have : p.2 ∈ (pairsOf allRows).map Prod.snd := List.mem_map_of_mem _ hp
      rwa [pairsOf_eq_enum, List.enum_map_snd] at this
    · rintro ⟨rows, hrows, r, hr, hk⟩
      have : rows ∈ (pairsOf allRows).map Prod.snd := by
        rwa [pairsOf_eq_enum, List.enum_map_snd]
      obtain ⟨p, hp, hps⟩ := List.mem_map.mp this
      exact ⟨p, hp, r, by rw [hps]; exact hr, hk⟩
  · intro num c hc
    rw [groupLookup_mergeGroup, pairsOf_map_fst, if_pos (List.mem_range.mpr hc)]
  · intro num c
    rw [mem_mergeGroup, pairsOf_map_fst, List.mem_range]

/-- Witness for C2 at a concrete input: two cameras, the first camera's
list holding a duplicate frame number (whose second record wins). -/
theorem merge_rows_spec_witness :
    groupLookup
        (mergeGroup (pairsOf [[{framenum := 7}, {framenum := 7, filled := [(some 1, some 2)]}],
          [{framenum := 3}]]) 7) 0 =
      lastWrite
        (insertionsOf (pairsOf [[{framenum := 7}, {framenum := 7, filled := [(some 1, some 2)]}],
          [{framenum := 3}]])) 0 7 :=
  (merge_rows_spec _).2.2.2.1 7 0 (by decide)

/-- Claim C5.  When an explicit camera-name list is supplied whose length
differs from the number of detection lists, `merge_rows` fails with the
error the spec calls `ConfigurationError` (the `assert` at the top of
`merge_rows`) and produces no merged output. -/
theorem merge_rows_name_count_mismatch (allRows : List (List Row))
    (camNames : List Nat) (h : camNames.length ≠ allRows.length) :
    mergeRows allRows (some camNames) = Except.error PyErr.assertionError := by
  simp only [mergeRows]
  rw [if_neg (fun e => h e.symm)]

/-- Witness for C5: two detection lists, one camera name. -/
theorem merge_rows_name_count_mismatch_witness :
    mergeRows [[{framenum := 0}], [{framenum := 1}]] (some [4]) =
      Except.error PyErr.assertionError :=
  merge_rows_name_count_mismatch _ _ (by decide)

/-! ### Camera-order independence of `merge_rows` (claim C9) -/

/-- Counterexample to claim C9 as stated: when the explicit camera-name
list contains the same name twice, jointly permuting the detection lists
and the name list changes which record the shared name maps to (the last
write across the `zip` iteration wins), so the merged groups' content per
frame key is *not* identical.  Here both cameras are named `5` and observe
frame `0` with different records. -/
theorem merge_rows_perm_cex :
    (mergeRows [[{framenum := 0}], [{framenum := 0, filled := [(some 1, some 1)]}]]
        (some [5, 5])).toOption.map (fun m => m.map (fun g => groupLookup g 5)) ≠
      (mergeRows [[{framenum := 0, filled := [(some 1, some 1)]}], [{framenum := 0}]]
        (some [5, 5])).toOption.map (fun m => m.map (fun g => groupLookup g 5)) := by
  decide

/-- Writes tagged with a camera name absent from the pair list never
survive the per-camera filter. -/
theorem filter_insertionsOf_not_mem (pairs : List (Nat × List Row)) (c num : Nat)
    (hc : c ∉ pairs.map Prod.fst) :
    (insertionsOf pairs).filter (fun x => x.1 == c && x.2.framenum == num) = [] := by
  induction pairs with
  | nil => rfl
  | cons p rest ih =>
    simp only [List.map_cons, List.mem_cons] at hc
    push_neg at hc
    have hhead : (p.2.map (fun r => (p.1, r))).filter
        (fun x => x.1 == c && x.2.framenum == num) = [] := by
      rw [List.filter_eq_nil_iff]
      rintro x hx
      obtain ⟨r, _, rfl⟩ := List.mem_map.mp hx
      simp only [Bool.and_eq_true, beq_iff_eq]
      rintro ⟨e, _⟩
      exact hc.1 e.symm
    simp only [insertionsOf, List.flatMap_cons, List.filter_append]
    rw [hhead, List.nil_append]
    exact ih hc.2

/-- With duplicate-free camera names, the last write for camera `c` and
frame `num` comes entirely from the unique pair named `c`. -/
theorem lastWrite_of_nodup (pairs : List (Nat × List Row))
    (hn : (pairs.map Prod.fst).Nodup) (c num : Nat) :
    lastWrite (insertionsOf pairs) c num =
      (pairs.find? (fun p => p.1 == c)).bind
        (fun p => (p.2.filter (fun r => r.framenum == num)).getLast?) := by
  induction pairs with
  | nil => rfl
  | cons p rest ih =>
    rw [List.map_cons, List.nodup_cons] at hn
    by_cases hc : p.1 = c
    · have hcnot : c ∉ rest.map Prod.fst := by rw [← hc]; exact hn.1
      have hrest := filter_insertionsOf_not_mem rest c num hcnot
      unfold lastWrite
      simp only [insertionsOf, List.flatMap_cons, List.filter_append]
      rw [show (rest.flatMap fun p => p.2.map fun r => (p.1, r)) = insertionsOf rest from rfl,
        hrest, List.append_nil, List.filter_map]
      have hpred : ((fun x : Nat × Row => x.1 == c && x.2.framenum == num) ∘
          (fun r => (p.1, r))) = (fun r => r.framenum == num) := by
        funext r
        simp [hc]
      rw [hpred, List.getLast?_map]
      have hfind : (p :: rest).find? (fun q => q.1 == c) = some p :=
        List.find?_cons_of_pos _ (by simp [hc])
      rw [hfind, Option.some_bind]
      cases (p.2.filter (fun r => r.framenum == num)).getLast? <;> rfl
    · have hhead : (p.2.map (fun r => (p.1, r))).filter
          (fun x => x.1 == c && x.2.framenum == num) = [] := by
        rw [List.filter_eq_nil_iff]
        rintro x hx
        obtain ⟨r, _, rfl⟩ := List.mem_map.mp hx
        simp only [Bool.and_eq_true, beq_iff_eq]
        rintro ⟨e, _⟩
        exact hc e
      unfold lastWrite
      simp only [insertionsOf, List.flatMap_cons, List.filter_append]
      rw [hhead, List.nil_append]
      have hfind : (p :: rest).find? (fun q => q.1 == c) =
          rest.find? (fun q => q.1 == c) :=
        List.find?_cons_of_neg _ (by simp [hc])
      rw [hfind]
      exact ih hn.2

/-- With duplicate-free camera names, `find?` by name returns the same
pair on any permutation of the pair list. -/
theorem find?_fst_eq_of_perm (p1 p2 : List (Nat × List Row))
    (hp : List.Perm p1 p2) (hn : (p1.map Prod.fst).Nodup) (c : Nat) :
    p1.find? (fun p => p.1 == c) = p2.find? (fun p => p.1 == c) := by
  cases h1 : p1.find? (fun p => p.1 == c) with
  | none =>
    cases h2 : p2.find? (fun p => p.1 == c) with
    | none => rfl
    | some q =>
      have hq := List.mem_of_find?_eq_some h2
      exact absurd (List.find?_some h2)
        (List.find?_eq_none.mp h1 q (hp.mem_iff.mpr hq))
  | some q =>
    have hq := List.mem_of_find?_eq_some h1
    have hpq := List.find?_some h1
    cases h2 : p2.find? (fun p => p.1 == c) with
    | none =>
      exact absurd hpq (List.find?_eq_none.mp h2 q (hp.mem_iff.mp hq))
    | some q' =>
      have hq' := hp.mem_iff.mpr (List.mem_of_find?_eq_some h2)
      have hpq' := List.find?_some h2
      have heq : q = q' := by
        refine List.inj_on_of_nodup_map hn hq hq' ?_
        have e1 : q.1 = c := by simpa using hpq
        have e2 : q'.1 = c := by simpa using hpq'
        rw [e1, e2]
      rw [heq]

/-- The merged frame-number axis is invariant under permutation of the
camera pair list. -/
theorem mergedKeys_eq_of_perm (p1 p2 : List (Nat × List Row))
    (hp : List.Perm p1 p2) : mergedKeys p1 = mergedKeys p2 := by
  have hins : List.Perm (insertionsOf p1) (insertionsOf p2) := by
    unfold insertionsOf
    rw [List.flatMap_def, List.flatMap_def]
    exact (hp.map _).flatten
  have hd := (hins.map (fun x => x.2.framenum)).dedup
  unfold mergedKeys
  refine List.eq_of_perm_of_sorted ?_
    (List.sorted_insertionSort _ _) (List.sorted_insertionSort _ _)
  exact (List.perm_insertionSort _ _).trans
    (hd.trans (List.perm_insertionSort _ _).symm)

/-- Claim C9, amended: jointly permuting the detection lists and a
duplicate-free explicit camera-name list leaves the merged content
unchanged — the frame-number axis is identical and, for every frame number
and camera name, the merged group associates the name with the same
record. -/
theorem merge_rows_cam_order_independent (cns1 cns2 : List Nat)
    (ar1 ar2 : List (List Row))
    (hl1 : ar1.length = cns1.length) (hl2 : ar2.length = cns2.length)
    (hn : cns1.Nodup)
    (hp : List.Perm (cns1.zip ar1) (cns2.zip ar2)) :
    mergeRows ar1 (some cns1) =
      Except.ok ((mergedKeys (cns1.zip ar1)).map (mergeGroup (cns1.zip ar1)))
    ∧ mergeRows ar2 (some cns2) =
      Except.ok ((mergedKeys (cns2.zip ar2)).map (mergeGroup (cns2.zip ar2)))
    ∧ mergedKeys (cns1.zip ar1) = mergedKeys (cns2.zip ar2)
    ∧ ∀ num c, groupLookup (mergeGroup (cns1.zip ar1) num) c =
        groupLookup (mergeGroup (cns2.zip ar2) num) c := by
  have hf1 : (cns1.zip ar1).map Prod.fst = cns1 :=
    List.map_fst_zip _ _ (le_of_eq hl1.symm)
  have hn1 : ((cns1.zip ar1).map Prod.fst).Nodup := by rwa [hf1]
  have hn2 : ((cns2.zip ar2).map Prod.fst).Nodup :=
    (hp.map Prod.fst).nodup_iff.mp hn1
  refine ⟨by simp [mergeRows, mergeRowsCore, hl1],
    by simp [mergeRows, mergeRowsCore, hl2],
    mergedKeys_eq_of_perm _ _ hp, ?_⟩
  intro num c
  rw [groupLookup_mergeGroup, groupLookup_mergeGroup,
    lastWrite_of_nodup _ hn1, lastWrite_of_nodup _ hn2,
    find?_fst_eq_of_perm _ _ hp hn1]
  by_cases hc : c ∈ (cns1.zip ar1).map Prod.fst
  · rw [if_pos hc, if_pos ((hp.map Prod.fst).mem_iff.mp hc)]
  · rw [if_neg hc, if_neg (fun h => hc ((hp.map Prod.fst).mem_iff.mpr h))]

/-- Witness for the amended C9: two distinctly-named cameras, swapped. -/
theorem merge_rows_cam_order_independent_witness :
    groupLookup (mergeGroup ([5, 9].zip [[{framenum := 0}],
        [{framenum := 0, filled := [(some 1, some 1)]}]]) 0) 9 =
      groupLookup (mergeGroup ([9, 5].zip
        [[{framenum := 0, filled := [(some 1, some 1)]}], [{framenum := 0}]]) 0) 9 :=
  (merge_rows_cam_order_independent [5, 9] [9, 5] _ _ (by decide) (by decide)
    (by decide) (by decide)).2.2.2 0 9

/-! ## `extract_points` (boards.py lines 90–148) -/

/-- The camera-name resolution shared by `extract_points` and
`extract_rtvecs`: an explicit list, or
`sorted(set.union(*[set(r.keys()) for r in merged]))`.  On an empty merged
list `set.union` receives no arguments and raises `TypeError`. -/
def resolveCamNames (camNames? : Option (List Nat)) (merged : List FrameGroup) :
    Except PyErr (List Nat) :=
  match camNames? with
  | some l => Except.ok l
  | none =>
    match merged with
    | [] => Except.error PyErr.typeError
    | _ => Except.ok (((merged.flatMap (fun g => g.map Prod.fst)).dedup).insertionSort (· ≤ ·))

/-- The board geometry as consumed by `extract_points`:
`get_empty_detection().reshape(-1, 2).shape[0]` and
`get_object_points().reshape(-1, 3)`. -/
structure BoardP where
  nPoints : Nat
  objPoints : List Point3
deriving DecidableEq, Repr

/-- `bad` rows of a filled detection: `np.any(np.isnan(filled), axis=1)` —
a point with any NaN coordinate is bad. -/
def isBadP2 (p : Point2) : Bool := p.1.isNone || p.2.isNone

/-- `num_good`: the number of filled points with no NaN coordinate. -/
def numGoodFilled (r : Row) : Nat :=
  (r.filled.filter (fun p => !isBadP2 p)).length

/-- The skip test of the per-cell loop:
`num_good < min_points or ignore_no_pose and (rvec missing or tvec
missing)`, where missing means key absent or value `None`
(`row[cname].get('rvec', None) is None`). -/
def skipCell (minPoints : Nat) (ignoreNoPose : Bool) (r : Row) : Bool :=
  decide (numGoodFilled r < minPoints) ||
    (ignoreNoPose && (r.rvec.join.isNone || r.tvec.join.isNone))

/-- `objp_here = np.copy(objp_template); objp_here[bad] = np.nan`:
the object-point template with the camera's bad rows masked to NaN. -/
def maskedObjp (bd : BoardP) (r : Row) : List Point3 :=
  List.zipWith (fun (o : Point3) (p : Point2) => if isBadP2 p then nanP3 else o)
    bd.objPoints r.filled

/-- One `(cix, rix)` cell of the fill loop of `extract_points`:
`none` when the slot is left NaN (skip), `some (imgp_slot, objp_slot)`
when data is written.  Mis-shaped `filled` (which NumPy would reject at
the slot assignment) is an error. -/
def cellP (bd : BoardP) (minPoints : Nat) (ignoreNoPose : Bool) (r : Row) :
    Except PyErr (Option (List Point2 × List Point3)) :=
  if skipCell minPoints ignoreNoPose r then Except.ok none
  else if r.filled.length = bd.nPoints ∧ bd.objPoints.length = bd.nPoints then
    Except.ok (some (r.filled, maskedObjp bd r))
  else Except.error PyErr.valueError

/-- The inner camera loop of `extract_points` for one merged row: a slot
per camera, `none` when the camera is absent or skipped. -/
def rowCellsP (bd : BoardP) (minPoints : Nat) (ignoreNoPose : Bool)
    (g : FrameGroup) : List Nat → Except PyErr (List (Option (List Point2 × List Point3)))
  | [] => Except.ok []
  | c :: rest =>
    match groupLookup g c with
    | none => do
      let srest ← rowCellsP bd minPoints ignoreNoPose g rest
      Except.ok (none :: srest)
    | some r => do
      let s ← cellP bd minPoints ignoreNoPose r
      let srest ← rowCellsP bd minPoints ignoreNoPose g rest
      Except.ok (s :: srest)

/-- The full fill loop: one slot row per merged frame. -/
def gridP (bd : BoardP) (minPoints : Nat) (ignoreNoPose : Bool)
    (camNames : List Nat) :
    List FrameGroup → Except PyErr (List (List (Option (List Point2 × List Point3))))
  | [] => Except.ok []
  | g :: rest => do
    let s ← rowCellsP bd minPoints ignoreNoPose g camNames
    let srest ← gridP bd minPoints ignoreNoPose camNames rest
    Except.ok (s :: srest)

/-- Flattening of the frame × board-point axes
(`np.reshape(objp, (n_cams, -1, 3))` and the image analogue): for one
merged frame, the `nPoints` observation columns, each listing the
per-camera `(imgp, objp)` values (NaN for unwritten slots). -/
def expandRowP (bd : BoardP) (slots : List (Option (List Point2 × List Point3))) :
    List (List (Point2 × Point3)) :=
  (List.range bd.nPoints).map (fun j => slots.map (fun s =>
    match s with
    | none => (nanP2, nanP3)
    | some (f, o) => (f.getD j nanP2, o.getD j nanP3)))

/-- All observation columns of the flattened tensors, frame-major. -/
def obsListP (bd : BoardP) (grid : List (List (Option (List Point2 × List Point3)))) :
    List (List (Point2 × Point3)) :=
  grid.flatMap (expandRowP bd)

/-- `num_good = np.sum(~np.isnan(imgp), axis=0)[:, 0]`: the number of
cameras whose image point has a non-NaN first coordinate. -/
def obsGood (obs : List (Point2 × Point3)) : Nat :=
  (obs.filter (fun e => e.1.1.isSome)).length

/-- `extract_points(merged, board, cam_names, min_cameras, min_points,
ignore_no_pose)`.  The `(C, N, 3)` / `(C, N, 2)` output pair is
represented observation-major (the transpose): the list of kept
observation columns, each holding the `C` per-camera values. -/
def extractPoints (merged : List FrameGroup) (bd : BoardP)
    (camNames? : Option (List Nat)) (minCameras minPoints : Nat)
    (ignoreNoPose : Bool) :
    Except PyErr (List (List Point3) × List (List Point2)) := do
  let camNames ← resolveCamNames camNames? merged
  let grid ← gridP bd minPoints ignoreNoPose camNames merged
  let kept := (obsListP bd grid).filter (fun obs => minCameras ≤ obsGood obs)
  Except.ok (kept.map (fun obs => obs.map Prod.snd),
    kept.map (fun obs => obs.map Prod.fst))

/-! ### The per-cell rule of `extract_points` (claim C7) -/

/-- The Boolean skip test, as a proposition. -/
theorem skipCell_eq_true_iff (mp : Nat) (inp : Bool) (r : Row) :
    skipCell mp inp r = true ↔
      (numGoodFilled r < mp ∨
        (inp = true ∧ (r.rvec.join = none ∨ r.tvec.join = none))) := by
  simp [skipCell, Option.isNone_iff_eq_none]

/-- One cell of `extract_points` on well-shaped data: skipped exactly under
the skip test, otherwise the filled image points and the masked
object-point template. -/
theorem cellP_eq (bd : BoardP) (mp : Nat) (inp : Bool) (r : Row)
    (hf : r.filled.length = bd.nPoints)
    (hobj : bd.objPoints.length = bd.nPoints) :
    cellP bd mp inp r = Except.ok
      (if numGoodFilled r < mp ∨
          (inp = true ∧ (r.rvec.join = none ∨ r.tvec.join = none))
        then none else some (r.filled, maskedObjp bd r)) := by
  unfold cellP
  by_cases h : skipCell mp inp r = true
  · rw [if_pos h, if_pos ((skipCell_eq_true_iff mp inp r).mp h)]
  · rw [if_neg h, if_pos ⟨hf, hobj⟩,
      if_neg (fun hp => h ((skipCell_eq_true_iff mp inp r).mpr hp))]

/-- The description of one written slot row, used to state claim C7. -/
def cellRule (bd : BoardP) (mp : Nat) (inp : Bool) (g : FrameGroup) (c : Nat) :
    Option (List Point2 × List Point3) :=
  match groupLookup g c with
  | none => none
  | some r =>
    if numGoodFilled r < mp ∨
        (inp = true ∧ (r.rvec.join = none ∨ r.tvec.join = none))
      then none else some (r.filled, maskedObjp bd r)

theorem rowCellsP_eq (bd : BoardP) (mp : Nat) (inp : Bool) (g : FrameGroup)
    (camNames : List Nat) (hobj : bd.objPoints.length = bd.nPoints)
    (hwf : ∀ c ∈ camNames, ∀ r, groupLookup g c = some r →
      r.filled.length = bd.nPoints) :
    rowCellsP bd mp inp g camNames =
      Except.ok (camNames.map (cellRule bd mp inp g)) := by
  induction camNames with
  | nil => rfl
  | cons c rest ih =>
    have hres := ih (fun c' hc' => hwf c' (List.mem_cons_of_mem _ hc'))
    cases hg : groupLookup g c with
    | none =>
      unfold rowCellsP
      simp only [List.map_cons, cellRule, hg, hres]
      rfl
    | some r =>
      unfold rowCellsP
      simp only [List.map_cons, cellRule, hg, hres,
        cellP_eq bd mp inp r (hwf c (List.mem_cons_self c rest) r hg) hobj]
      rfl

theorem gridP_eq (bd : BoardP) (mp : Nat) (inp : Bool) (camNames : List Nat)
    (merged : List FrameGroup) (hobj : bd.objPoints.length = bd.nPoints)
    (hwf : ∀ g ∈ merged, ∀ c ∈ camNames, ∀ r, groupLookup g c = some r →
      r.filled.length = bd.nPoints) :
    gridP bd mp inp camNames merged =
      Except.ok (merged.map (fun g => camNames.map (cellRule bd mp inp g))) := by
  induction merged with
  | nil => rfl
  | cons g rest ih =>
    have hres := ih (fun g' hg' => hwf g' (List.mem_cons_of_mem _ hg'))
    unfold gridP
    rw [rowCellsP_eq bd mp inp g camNames hobj
      (hwf g (List.mem_cons_self g rest)), hres]
    rfl

/-- Claim C7.  In the fill loop of `extract_points`, on well-shaped data,
the slot of a camera present in a frame's merged group is left entirely
NaN exactly when the count of non-NaN filled points is below `min_points`
or `ignore_no_pose` is enabled and the record's rvec or tvec is missing
(key absent or `None`); otherwise the camera's filled image points and the
board's object-point template — with the camera's unobserved points masked
to NaN — are written into the slot.  (An absent camera's slot also stays
NaN.) -/
theorem extract_points_cell_rule (bd : BoardP) (mp : Nat) (inp : Bool)
    (camNames : List Nat) (merged : List FrameGroup)
    (hobj : bd.objPoints.length = bd.nPoints)
    (hwf : ∀ g ∈ merged, ∀ c ∈ camNames, ∀ r, groupLookup g c = some r →
      r.filled.length = bd.nPoints) :
    gridP bd mp inp camNames merged =
      Except.ok (merged.map (fun g => camNames.map (fun c =>
        match groupLookup g c with
        | none => none
        | some r =>
          if numGoodFilled r < mp ∨
              (inp = true ∧ (r.rvec.join = none ∨ r.tvec.join = none))
            then none else some (r.filled, maskedObjp bd r)))) :=
  gridP_eq bd mp inp camNames merged hobj hwf

/-- Witness for C7: a 2-point board, one frame, one present camera with
one good filled point out of two (skipped under `min_points = 3`), plus an
absent camera. -/
theorem extract_points_cell_rule_witness :
    (gridP ⟨2, [(some 0, some 0, some 0), (some 1, some 0, some 0)]⟩ 3 false
        [0, 1] [[(0, {framenum := 0, filled := [(some 4, some 5), nanP2]})]]).toOption =
      some [[none, none]] := by
  have h := extract_points_cell_rule
    ⟨2, [(some 0, some 0, some 0), (some 1, some 0, some 0)]⟩ 3 false [0, 1]
    [[(0, {framenum := 0, filled := [(some 4, some 5), nanP2]})]]
    (by decide) (by decide)
  rw [h]
  rfl

/-! ### Threshold monotonicity of `extract_points` (claim C8) -/

/-- Claim C8.  With all other arguments fixed, raising `min_cameras` never
increases the number of retained observation rows of either output tensor:
the threshold only enters the final per-observation filter, and a stricter
threshold keeps a sublist. -/
theorem extract_points_min_cameras_mono (merged : List FrameGroup)
    (bd : BoardP) (camNames? : Option (List Nat)) (m1 m2 mp : Nat)
    (inp : Bool) (o1 o2 : List (List Point3)) (i1 i2 : List (List Point2))
    (hm : m1 ≤ m2)
    (h1 : extractPoints merged bd camNames? m1 mp inp = Except.ok (o1, i1))
    (h2 : extractPoints merged bd camNames? m2 mp inp = Except.ok (o2, i2)) :
    i2.length ≤ i1.length ∧ o2.length ≤ o1.length := by
  unfold extractPoints at h1 h2
  cases hres : resolveCamNames camNames? merged with
  | error e =>
    rw [hres] at h1
    rw [exceptBind_error] at h1
    exact Except.noConfusion h1
  | ok camNames =>
    rw [hres] at h1 h2
    rw [exceptBind_ok] at h1 h2
    cases hgrid : gridP bd mp inp camNames merged with
    | error e =>
      rw [hgrid] at h1
      rw [exceptBind_error] at h1
      exact Except.noConfusion h1
    | ok grid =>
      rw [hgrid] at h1 h2
      rw [exceptBind_ok] at h1 h2
      simp only [Except.ok.injEq, Prod.mk.injEq] at h1 h2
      obtain ⟨ho1, hi1⟩ := h1
      obtain ⟨ho2, hi2⟩ := h2
      subst ho1
      subst hi1
      subst ho2
      subst hi2
      have hsub : ((obsListP bd grid).filter
            (fun obs => decide (m2 ≤ obsGood obs))).length ≤
          ((obsListP bd grid).filter
            (fun obs => decide (m1 ≤ obsGood obs))).length := by
        refine List.Sublist.length_le (List.monotone_filter_right _ ?_)
        intro obs hobs
        simp only [decide_eq_true_eq] at hobs ⊢
        exact le_trans hm hobs
      constructor
      · rw [List.length_map, List.length_map]
        exact hsub
      · rw [List.length_map, List.length_map]
        exact hsub

/-- Witness for C8: one camera seeing one good 1-point frame; thresholds 1
and 2 (the stricter one keeps nothing). -/
theorem extract_points_min_cameras_mono_witness :
    (1 : Nat) ≤ 2
    ∧ extractPoints [[(0, {framenum := 0, filled := [(some 4, some 5)]})]]
        ⟨1, [(some 0, some 0, some 0)]⟩ (some [0]) 1 0 false =
      Except.ok ([[(some 0, some 0, some 0)]], [[(some 4, some 5)]])
    ∧ extractPoints [[(0, {framenum := 0, filled := [(some 4, some 5)]})]]
        ⟨1, [(some 0, some 0, some 0)]⟩ (some [0]) 2 0 false =
      Except.ok ([], [])
    ∧ ([] : List (List Point2)).length ≤ [[((some 4 : Coord), (some 5 : Coord))]].length :=
  ⟨by decide, by rfl, by rfl,
    (extract_points_min_cameras_mono
      [[(0, {framenum := 0, filled := [(some 4, some 5)]})]]
      ⟨1, [(some 0, some 0, some 0)]⟩ (some [0]) 1 2 0 false
      [[(some 0, some 0, some 0)]] [] [[(some 4, some 5)]] []
      (by decide) (by rfl) (by rfl)).1⟩

/-! ## `extract_rtvecs` (boards.py lines 151–206) -/

/-- The board's pose-estimation primitive as consumed by `extract_rtvecs`
(`board.estimate_pose_points(cameras[cix], r['corners'], r['ids'])`): an
abstract calibration-object capability mapping a camera model (indexed by
`Nat`) and the record's corners/ids to an optional rvec/tvec pair. -/
structure BoardR where
  estimatePosePoints :
    Nat → Option (List Point2) → Option (List Nat) → Option Vec3 × Option Vec3

/-- One stored slot of the `(C, N, 6)` tensor:
`np.hstack([rvec.ravel(), tvec.ravel()])`. -/
abbrev Vec6 := Vec3 × Vec3

/-- The slot computed from a record whose rvec/tvec keys are present:
`None` values leave the slot NaN (the `continue`), present 3-vectors are
concatenated. -/
def cacheSlot (r : Row) : Option Vec6 :=
  match r.rvec.join, r.tvec.join with
  | some rv, some tv => some (rv, tv)
  | _, _ => none

/-- One `(rix, cix)` cell of `extract_rtvecs`: when the rvec or tvec key
is absent, either raise (`board is None` → the `ValueError` the spec calls
`ConfigurationError`; `cameras` `None` → `TypeError` from `cameras[cix]`;
index out of range → `IndexError`) or estimate the pose and cache it into
the record (also when the estimate is the `None` pair); then read the
cached values into the slot.  Returns the (possibly mutated) record and
the slot. -/
def processCellR (board? : Option BoardR) (cameras? : Option (List Nat))
    (cix : Nat) (r : Row) : Except PyErr (Row × Option Vec6) :=
  if r.rvec.isNone || r.tvec.isNone then
    match board? with
    | none => Except.error PyErr.valueError
    | some bd =>
      match cameras? with
      | none => Except.error PyErr.typeError
      | some cams =>
        match cams.get? cix with
        | none => Except.error PyErr.indexError
        | some cam =>
          let rv := (bd.estimatePosePoints cam r.corners r.ids).1
          let tv := (bd.estimatePosePoints cam r.corners r.ids).2
          Except.ok ({ r with rvec := some rv, tvec := some tv },
            cacheSlot { r with rvec := some rv, tvec := some tv })
  else Except.ok (r, cacheSlot r)

/-- The inner camera loop of `extract_rtvecs` over one merged row,
threading the record mutations through the group. -/
def processCellsR (board? : Option BoardR) (cameras? : Option (List Nat)) :
    Nat → List Nat → FrameGroup → Except PyErr (FrameGroup × List (Option Vec6))
  | _, [], g => Except.ok (g, [])
  | cix, c :: rest, g =>
    match groupLookup g c with
    | none =>
      match processCellsR board? cameras? (cix + 1) rest g with
      | Except.error e => Except.error e
      | Except.ok (g', s) => Except.ok (g', none :: s)
    | some r =>
      match processCellR board? cameras? cix r with
      | Except.error e => Except.error e
      | Except.ok (r', slot) =>
        match processCellsR board? cameras? (cix + 1) rest (groupUpdate g c r') with
        | Except.error e => Except.error e
        | Except.ok (g', s) => Except.ok (g', slot :: s)

/-- The outer frame loop of `extract_rtvecs`. -/
def processRowsR (board? : Option BoardR) (cameras? : Option (List Nat))
    (camNames : List Nat) :
    List FrameGroup → Except PyErr (List FrameGroup × List (List (Option Vec6)))
  | [] => Except.ok ([], [])
  | g :: rest =>
    match processCellsR board? cameras? 0 camNames g with
    | Except.error e => Except.error e
    | Except.ok (g', s) =>
      match processRowsR board? cameras? camNames rest with
      | Except.error e => Except.error e
      | Except.ok (rest', srest) => Except.ok (g' :: rest', s :: srest)

/-- The per-slot goodness test `~np.isnan(rtvecs)[:, :, 0]`: the first
stored component is non-NaN. -/
def slotGood (s : Option Vec6) : Bool :=
  match s with
  | none => false
  | some v => v.1.1.isSome

/-- `extract_rtvecs(merged, cam_names, min_cameras, board, cameras)`.
The `(C, N, 6)` output is represented observation-major (the list of kept
frame columns, each holding the `C` per-camera slots); the function also
returns the merged groups with the cached poses, modelling the in-place
mutation of the records. -/
def extractRtvecs (merged : List FrameGroup) (camNames? : Option (List Nat))
    (minCameras : Nat) (board? : Option BoardR) (cameras? : Option (List Nat)) :
    Except PyErr (List (List (Option Vec6)) × List FrameGroup) := do
  let camNames ← resolveCamNames camNames? merged
  let pr ← processRowsR board? cameras? camNames merged
  Except.ok
    (pr.2.filter (fun slots => minCameras ≤ (slots.filter slotGood).length),
      pr.1)

/-! ### Lemmas on group updates and cell processing -/

theorem groupUpdate_map_fst (g : FrameGroup) (c : Nat) (r : Row) :
    (groupUpdate g c r).map Prod.fst = g.map Prod.fst := by
  induction g with
  | nil => rfl
  | cons e rest ih =>
    unfold groupUpdate
    by_cases h : e.1 == c
    · rw [if_pos h]
      simp only [List.map_cons]
    · rw [if_neg h]
      simp only [List.map_cons, ih]

theorem groupUpdate_lookup_self (g : FrameGroup) (c : Nat) (r r0 : Row)
    (h : groupLookup g c = some r0) :
    groupLookup (groupUpdate g c r) c = some r := by
  induction g with
  | nil => exact absurd h (by simp [groupLookup])
  | cons e rest ih =>
    rw [groupLookup_cons] at h
    unfold groupUpdate
    cases hbb : (e.1 == c) with
    | true =>
      simp only [hbb, if_true]
      rw [groupLookup_cons]
      simp [hbb]
    | false =>
      simp only [hbb, Bool.false_eq_true, if_false] at h
      simp only [hbb, Bool.false_eq_true, if_false]
      rw [groupLookup_cons]
      simp only [hbb, Bool.false_eq_true, if_false]
      exact ih h

theorem groupUpdate_lookup_ne (g : FrameGroup) (c c' : Nat) (r : Row)
    (h : c' ≠ c) :
    groupLookup (groupUpdate g c r) c' = groupLookup g c' := by
  induction g with
  | nil => rfl
  | cons e rest ih =>
    unfold groupUpdate
    cases hbb : (e.1 == c) with
    | true =>
      simp only [hbb, if_true]
      rw [groupLookup_cons, groupLookup_cons]
      have hne : (e.1 == c') = false := by
        have he1 : e.1 = c := by simpa using hbb
        rw [he1]
        simp only [beq_eq_false_iff_ne, ne_eq]
        exact fun hx => h hx.symm
      simp [hne]
    | false =>
      simp only [hbb, Bool.false_eq_true, if_false]
      rw [groupLookup_cons, groupLookup_cons, ih]

theorem groupUpdate_self (g : FrameGroup) (c : Nat) (r : Row)
    (h : groupLookup g c = some r) : groupUpdate g c r = g := by
  induction g with
  | nil => rfl
  | cons e rest ih =>
    unfold groupUpdate
    rw [groupLookup_cons] at h
    by_cases he : e.1 == c
    · rw [if_pos he]
      rw [if_pos he] at h
      injection h with h
      rw [show e = (e.1, e.2) from rfl, h]
    · rw [if_neg he]
      rw [if_neg he] at h
      rw [ih h]

/-- After a successful cell step the record's rvec/tvec keys are present,
the slot is the cached one, and reprocessing the record — with any board,
camera set or camera index — returns it unchanged with the same slot:
the cache-back makes the cell a pure read from then on. -/
theorem processCellR_stable (b? : Option BoardR) (cams? : Option (List Nat))
    (cix : Nat) (r r' : Row) (slot : Option Vec6)
    (h : processCellR b? cams? cix r = Except.ok (r', slot)) :
    r'.rvec.isSome = true ∧ r'.tvec.isSome = true ∧ slot = cacheSlot r' ∧
      ∀ b?' cams?' cix', processCellR b?' cams?' cix' r' = Except.ok (r', slot) := by
  unfold processCellR at h
  split at h
  · -- rvec or tvec key absent: lazily estimate through the board
    split at h
    · exact Except.noConfusion h
    · split at h
      · exact Except.noConfusion h
      · split at h
        · exact Except.noConfusion h
        · injection h with h
          rw [Prod.mk.injEq] at h
          obtain ⟨h1, h2⟩ := h
          subst h1
          subst h2
          refine ⟨rfl, rfl, rfl, ?_⟩
          intro b?' cams?' cix'
          unfold processCellR
          rw [if_neg (by simp)]
  · -- both keys present: the cell is a pure read
    rename_i hmiss
    injection h with h
    rw [Prod.mk.injEq] at h
    obtain ⟨h1, h2⟩ := h
    subst h1
    subst h2
    rw [Bool.not_eq_true, Bool.or_eq_false_iff] at hmiss
    obtain ⟨hr1, hr2⟩ := hmiss
    have hs1 : r.rvec.isSome = true := by
      rw [← Option.ne_none_iff_isSome]
      intro he
      rw [he] at hr1
      simp at hr1
    have hs2 : r.tvec.isSome = true := by
      rw [← Option.ne_none_iff_isSome]
      intro he
      rw [he] at hr2
      simp at hr2
    refine ⟨hs1, hs2, rfl, ?_⟩
    intro b?' cams?' cix'
    unfold processCellR
    rw [if_neg (by rw [hr1, hr2]; simp)]

/-- Cell processing never adds a camera to a group: a name absent before is
absent after. -/
theorem processCellsR_lookup_none (b? : Option BoardR) (cams? : Option (List Nat))
    (cnames : List Nat) :
    ∀ (cix : Nat) (g g' : FrameGroup) (s : List (Option Vec6)),
      processCellsR b? cams? cix cnames g = Except.ok (g', s) →
      ∀ c, groupLookup g c = none → groupLookup g' c = none := by
  induction cnames with
  | nil =>
    intro cix g g' s h c hc
    unfold processCellsR at h
    injection h with h
    rw [Prod.mk.injEq] at h
    rw [← h.1]
    exact hc
  | cons c0 rest ih =>
    intro cix g g' s h c hc
    unfold processCellsR at h
    split at h
    · split at h
      · exact Except.noConfusion h
      · rename_i g1 s1 hrec
        injection h with h
        rw [Prod.mk.injEq] at h
        obtain ⟨h1, h2⟩ := h
        subst h1
        exact ih _ _ _ _ hrec c hc
    · rename_i r hlook
      split at h
      · exact Except.noConfusion h
      · rename_i r' slot hcell
        split at h
        · exact Except.noConfusion h
        · rename_i g1 s1 hrec
          injection h with h
          rw [Prod.mk.injEq] at h
          obtain ⟨h1, h2⟩ := h
          subst h1
          have hne : c ≠ c0 := by
            intro e
            rw [e, hlook] at hc
            exact Option.noConfusion hc
          have hstep : groupLookup (groupUpdate g c0 r') c = none := by
            rw [groupUpdate_lookup_ne _ _ _ _ hne]
            exact hc
          exact ih _ _ _ _ hrec c hstep

/-- A record on which the cell step is a fixed point keeps its binding
through the whole camera loop. -/
theorem processCellsR_lookup_stable (b? : Option BoardR) (cams? : Option (List Nat))
    (cnames : List Nat) :
    ∀ (cix : Nat) (g g' : FrameGroup) (s : List (Option Vec6)),
      processCellsR b? cams? cix cnames g = Except.ok (g', s) →
      ∀ c r, groupLookup g c = some r →
        (∀ b?' cams?' cix', processCellR b?' cams?' cix' r = Except.ok (r, cacheSlot r)) →
        groupLookup g' c = some r := by
  induction cnames with
  | nil =>
    intro cix g g' s h c r hr hfix
    unfold processCellsR at h
    injection h with h
    rw [Prod.mk.injEq] at h
    rw [← h.1]
    exact hr
  | cons c0 rest ih =>
    intro cix g g' s h c r hr hfix
    unfold processCellsR at h
    split at h
    · rename_i hlook
      split at h
      · exact Except.noConfusion h
      · rename_i g1 s1 hrec
        injection h with h
        rw [Prod.mk.injEq] at h
        obtain ⟨h1, h2⟩ := h
        subst h1
        exact ih _ _ _ _ hrec c r hr hfix
    · rename_i r0 hlook
      split at h
      · exact Except.noConfusion h
      · rename_i r0' slot0 hcell
        split at h
        · exact Except.noConfusion h
        · rename_i g1 s1 hrec
          injection h with h
          rw [Prod.mk.injEq] at h
          obtain ⟨h1, h2⟩ := h
          subst h1
          by_cases hcc : c = c0
          · subst hcc
            rw [hlook] at hr
            injection hr with hreq
            have hfix0 : ∀ b?' cams?' cix',
                processCellR b?' cams?' cix' r0 = Except.ok (r0, cacheSlot r0) := by
              rw [hreq]
              exact hfix
            rw [hfix0 b? cams? cix] at hcell
            injection hcell with hcell
            rw [Prod.mk.injEq] at hcell
            obtain ⟨hc1, hc2⟩ := hcell
            rw [← hc1, groupUpdate_self g c r0 hlook] at hrec
            have hlook2 : groupLookup g c = some r := by rw [hlook, hreq]
            exact ih _ _ _ _ hrec c r hlook2 hfix
          · have hstep : groupLookup (groupUpdate g c0 r0') c = some r := by
              rw [groupUpdate_lookup_ne _ _ _ _ hcc]
              exact hr
            exact ih _ _ _ _ hrec c r hstep hfix

/-- The key stability property of the camera loop: once it has run
successfully, rerunning it on the updated group — with any board, camera
set, or starting camera index — reads the cached poses and reproduces
exactly the same group and slots, performing no further mutation. -/
theorem processCellsR_stable (b? : Option BoardR) (cams? : Option (List Nat))
    (cnames : List Nat) :
    ∀ (cix : Nat) (g g' : FrameGroup) (s : List (Option Vec6)),
      processCellsR b? cams? cix cnames g = Except.ok (g', s) →
      ∀ b?' cams?' cix',
        processCellsR b?' cams?' cix' cnames g' = Except.ok (g', s) := by
  induction cnames with
  | nil =>
    intro cix g g' s h b?' cams?' cix'
    unfold processCellsR at h
    injection h with h
    rw [Prod.mk.injEq] at h
    obtain ⟨h1, h2⟩ := h
    subst h1
    subst h2
    rfl
  | cons c0 rest ih =>
    intro cix g g' s h b?' cams?' cix'
    unfold processCellsR at h
    split at h
    · rename_i hlook
      split at h
      · exact Except.noConfusion h
      · rename_i g1 s1 hrec
        injection h with h
        rw [Prod.mk.injEq] at h
        obtain ⟨h1, h2⟩ := h
        subst h1
        subst h2
        have hlook2 := processCellsR_lookup_none b? cams? rest _ _ _ _ hrec c0 hlook
        have hrec2 := ih _ _ _ _ hrec b?' cams?' (cix' + 1)
        simp only [processCellsR, hlook2, hrec2]
    · rename_i r0 hlook
      split at h
      · exact Except.noConfusion h
      · rename_i r0' slot0 hcell
        split at h
        · exact Except.noConfusion h
        · rename_i g1 s1 hrec
          injection h with h
          rw [Prod.mk.injEq] at h
          obtain ⟨h1, h2⟩ := h
          subst h1
          subst h2
          obtain ⟨hv1, hv2, hslot, hfix⟩ :=
            processCellR_stable b? cams? cix r0 r0' slot0 hcell
          have hfix2 : ∀ b?'' cams?'' cix'',
              processCellR b?'' cams?'' cix'' r0' = Except.ok (r0', cacheSlot r0') := by
            intro b?'' cams?'' cix''
            rw [← hslot]
            exact hfix b?'' cams?'' cix''
          have hupd : groupLookup (groupUpdate g c0 r0') c0 = some r0' :=
            groupUpdate_lookup_self g c0 r0' r0 hlook
          have hlook2 :=
            processCellsR_lookup_stable b? cams? rest _ _ _ _ hrec c0 r0' hupd hfix2
          have hupd2 := groupUpdate_self _ _ _ hlook2
          have hrec2 := ih _ _ _ _ hrec b?' cams?' (cix' + 1)
          simp only [processCellsR, hlook2, hfix b?' cams?' cix', hupd2, hrec2]

/-- After a successful camera loop, every record reachable under a
processed camera name has both pose keys present. -/
theorem processCellsR_settles (b? : Option BoardR) (cams? : Option (List Nat))
    (cnames : List Nat) :
    ∀ (cix : Nat) (g g' : FrameGroup) (s : List (Option Vec6)),
      processCellsR b? cams? cix cnames g = Except.ok (g', s) →
      ∀ c ∈ cnames, ∀ r', groupLookup g' c = some r' →
        r'.rvec.isSome = true ∧ r'.tvec.isSome = true := by
  induction cnames with
  | nil =>
    intro cix g g' s h c hc
    exact absurd hc (List.not_mem_nil c)
  | cons c0 rest ih =>
    intro cix g g' s h c hc r' hr'
    unfold processCellsR at h
    split at h
    · rename_i hlook
      split at h
      · exact Except.noConfusion h
      · rename_i g1 s1 hrec
        injection h with h
        rw [Prod.mk.injEq] at h
        obtain ⟨h1, h2⟩ := h
        subst h1
        subst h2
        rcases List.mem_cons.mp hc with hc0 | hcr
        · subst hc0
          have := processCellsR_lookup_none b? cams? rest _ _ _ _ hrec c hlook
          rw [this] at hr'
          exact Option.noConfusion hr'
        · exact ih _ _ _ _ hrec c hcr r' hr'
    · rename_i r0 hlook
      split at h
      · exact Except.noConfusion h
      · rename_i r0' slot0 hcell
        split at h
        · exact Except.noConfusion h
        · rename_i g1 s1 hrec
          injection h with h
          rw [Prod.mk.injEq] at h
          obtain ⟨h1, h2⟩ := h
          subst h1
          subst h2
          obtain ⟨hv1, hv2, hslot, hfix⟩ :=
            processCellR_stable b? cams? cix r0 r0' slot0 hcell
          rcases List.mem_cons.mp hc with hc0 | hcr
          · subst hc0
            have hfix2 : ∀ b?'' cams?'' cix'',
                processCellR b?'' cams?'' cix'' r0' =
                  Except.ok (r0', cacheSlot r0') := by
              intro b?'' cams?'' cix''
              rw [← hslot]
              exact hfix b?'' cams?'' cix''
            have hupd : groupLookup (groupUpdate g c r0') c = some r0' :=
              groupUpdate_lookup_self g c r0' r0 hlook
            have hlook2 :=
              processCellsR_lookup_stable b? cams? rest _ _ _ _ hrec c r0' hupd hfix2
            rw [hlook2] at hr'
            injection hr' with hr'
            subst hr'
            exact ⟨hv1, hv2⟩
          · exact ih _ _ _ _ hrec c hcr r' hr'

/-- The camera loop preserves the key set of the group. -/
theorem processCellsR_map_fst (b? : Option BoardR) (cams? : Option (List Nat))
    (cnames : List Nat) :
    ∀ (cix : Nat) (g g' : FrameGroup) (s : List (Option Vec6)),
      processCellsR b? cams? cix cnames g = Except.ok (g', s) →
      g'.map Prod.fst = g.map Prod.fst := by
  induction cnames with
  | nil =>
    intro cix g g' s h
    unfold processCellsR at h
    injection h with h
    rw [Prod.mk.injEq] at h
    rw [h.1]
  | cons c0 rest ih =>
    intro cix g g' s h
    unfold processCellsR at h
    split at h
    · split at h
      · exact Except.noConfusion h
      · rename_i g1 s1 hrec
        injection h with h
        rw [Prod.mk.injEq] at h
        obtain ⟨h1, h2⟩ := h
        subst h1
        exact ih _ _ _ _ hrec
    · rename_i r0 hlook
      split at h
      · exact Except.noConfusion h
      · rename_i r0' slot0 hcell
        split at h
        · exact Except.noConfusion h
        · rename_i g1 s1 hrec
          injection h with h
          rw [Prod.mk.injEq] at h
          obtain ⟨h1, h2⟩ := h
          subst h1
          rw [ih _ _ _ _ hrec, groupUpdate_map_fst]

/-- Row-level lifting of the stability property: after a successful run of
the frame loop, rerunning it on the mutated groups — with any board and
camera arguments — reproduces the same groups and the same slot rows. -/
theorem processRowsR_stable (b? : Option BoardR) (cams? : Option (List Nat))
    (camNames : List Nat) :
    ∀ (merged merged' : List FrameGroup) (srows : List (List (Option Vec6))),
      processRowsR b? cams? camNames merged = Except.ok (merged', srows) →
      ∀ b?' cams?',
        processRowsR b?' cams?' camNames merged' = Except.ok (merged', srows) := by
  intro merged
  induction merged with
  | nil =>
    intro merged' srows h b?' cams?'
    unfold processRowsR at h
    injection h with h
    rw [Prod.mk.injEq] at h
    obtain ⟨h1, h2⟩ := h
    subst h1
    subst h2
    rfl
  | cons g rest ih =>
    intro merged' srows h b?' cams?'
    unfold processRowsR at h
    split at h
    · exact Except.noConfusion h
    · rename_i g1 s1 hcells
      split at h
      · exact Except.noConfusion h
      · rename_i rest1 srest1 hrec
        injection h with h
        rw [Prod.mk.injEq] at h
        obtain ⟨h1, h2⟩ := h
        subst h1
        subst h2
        have hcells2 := processCellsR_stable b? cams? camNames _ _ _ _ hcells b?' cams?' 0
        have hrec2 := ih _ _ hrec b?' cams?'
        simp only [processRowsR, hcells2, hrec2]

/-- The frame loop preserves every group's key set. -/
theorem processRowsR_map_fst (b? : Option BoardR) (cams? : Option (List Nat))
    (camNames : List Nat) :
    ∀ (merged merged' : List FrameGroup) (srows : List (List (Option Vec6))),
      processRowsR b? cams? camNames merged = Except.ok (merged', srows) →
      merged'.map (fun g => g.map Prod.fst) = merged.map (fun g => g.map Prod.fst) := by
  intro merged
  induction merged with
  | nil =>
    intro merged' srows h
    unfold processRowsR at h
    injection h with h
    rw [Prod.mk.injEq] at h
    rw [h.1]
  | cons g rest ih =>
    intro merged' srows h
    unfold processRowsR at h
    split at h
    · exact Except.noConfusion h
    · rename_i g1 s1 hcells
      split at h
      · exact Except.noConfusion h
      · rename_i rest1 srest1 hrec
        injection h with h
        rw [Prod.mk.injEq] at h
        obtain ⟨h1, h2⟩ := h
        subst h1
        simp only [List.map_cons, ih _ _ hrec,
          processCellsR_map_fst b? cams? camNames _ _ _ _ hcells]

/-- After a successful frame loop, every record of a processed camera in
any resulting group carries both pose keys (also when the cached pose is
the `None` pair). -/
theorem processRowsR_settles (b? : Option BoardR) (cams? : Option (List Nat))
    (camNames : List Nat) :
    ∀ (merged merged' : List FrameGroup) (srows : List (List (Option Vec6))),
      processRowsR b? cams? camNames merged = Except.ok (merged', srows) →
      ∀ g' ∈ merged', ∀ c ∈ camNames, ∀ r', groupLookup g' c = some r' →
        r'.rvec.isSome = true ∧ r'.tvec.isSome = true := by
  intro merged
  induction merged with
  | nil =>
    intro merged' srows h g' hg'
    unfold processRowsR at h
    injection h with h
    rw [Prod.mk.injEq] at h
    obtain ⟨h1, h2⟩ := h
    subst h1
    exact absurd hg' (List.not_mem_nil g')
  | cons g rest ih =>
    intro merged' srows h g' hg'
    unfold processRowsR at h
    split at h
    · exact Except.noConfusion h
    · rename_i g1 s1 hcells
      split at h
      · exact Except.noConfusion h
      · rename_i rest1 srest1 hrec
        injection h with h
        rw [Prod.mk.injEq] at h
        obtain ⟨h1, h2⟩ := h
        subst h1
        rcases List.mem_cons.mp hg' with hgg | hgr
        · subst hgg
          exact processCellsR_settles b? cams? camNames _ _ _ _ hcells
        · exact ih _ _ hrec g' hgr

/-- Camera-name resolution depends only on the groups' key sets. -/
theorem resolveCamNames_congr (cn? : Option (List Nat))
    (m1 m2 : List FrameGroup)
    (hk : m1.map (fun g => g.map Prod.fst) = m2.map (fun g => g.map Prod.fst)) :
    resolveCamNames cn? m1 = resolveCamNames cn? m2 := by
  cases cn? with
  | some l => rfl
  | none =>
    cases m1 with
    | nil =>
      cases m2 with
      | nil => rfl
      | cons g2 r2 => exact absurd hk (by simp)
    | cons g1 r1 =>
      cases m2 with
      | nil => exact absurd hk (by simp)
      | cons g2 r2 =>
        have hfl : (g1 :: r1).flatMap (fun g => g.map Prod.fst) =
            (g2 :: r2).flatMap (fun g => g.map Prod.fst) := by
          rw [List.flatMap_def, List.flatMap_def, hk]
        simp only [resolveCamNames, hfl]

/-- Claim C6.  A successful `extract_rtvecs` call caches every computed
pose back into the records; invoking it a second time on the resulting
(mutated) merged groups with the same arguments performs only reads and
returns exactly the same tensor and the same groups. -/
theorem extract_rtvecs_idempotent (merged : List FrameGroup)
    (cn? : Option (List Nat)) (mc : Nat) (b? : Option BoardR)
    (cams? : Option (List Nat)) (t : List (List (Option Vec6)))
    (merged' : List FrameGroup)
    (h : extractRtvecs merged cn? mc b? cams? = Except.ok (t, merged')) :
    extractRtvecs merged' cn? mc b? cams? = Except.ok (t, merged') := by
  unfold extractRtvecs at h ⊢
  cases hres : resolveCamNames cn? merged with
  | error e =>
    rw [hres, exceptBind_error] at h
    exact Except.noConfusion h
  | ok camNames =>
    rw [hres, exceptBind_ok] at h
    cases hrows : processRowsR b? cams? camNames merged with
    | error e =>
      rw [hrows, exceptBind_error] at h
      exact Except.noConfusion h
    | ok pr =>
      obtain ⟨m1, s1⟩ := pr
      rw [hrows, exceptBind_ok] at h
      injection h with h
      rw [Prod.mk.injEq] at h
      obtain ⟨h1, h2⟩ := h
      subst h2
      subst h1
      have hres2 : resolveCamNames cn? m1 = Except.ok camNames := by
        rw [resolveCamNames_congr cn? m1 merged
          (processRowsR_map_fst b? cams? camNames _ _ _ hrows), hres]
      rw [hres2, exceptBind_ok,
        processRowsR_stable b? cams? camNames _ _ _ hrows b? cams?,
        exceptBind_ok]

/-- Witness for C6: one camera, one frame, a board whose estimate
succeeds; the second call on the mutated groups reproduces the tensor. -/
theorem extract_rtvecs_idempotent_witness :
    extractRtvecs [[(0, {framenum := 0, rvec := some (some (some 1, some 1, some 1)), tvec := some (some (some 2, some 2, some 2))})]] (some [0]) 1
        (some ⟨fun _ _ _ => (some (some 1, some 1, some 1), some (some 2, some 2, some 2))⟩) (some [7]) =
      Except.ok ([[some ((some 1, some 1, some 1), (some 2, some 2, some 2))]],
        [[(0, {framenum := 0, rvec := some (some (some 1, some 1, some 1)), tvec := some (some (some 2, some 2, some 2))})]]) :=
  extract_rtvecs_idempotent [[(0, {framenum := 0})]] (some [0]) 1
    (some ⟨fun _ _ _ => (some (some 1, some 1, some 1), some (some 2, some 2, some 2))⟩) (some [7])
    [[some ((some 1, some 1, some 1), (some 2, some 2, some 2))]]
    [[(0, {framenum := 0, rvec := some (some (some 1, some 1, some 1)), tvec := some (some (some 2, some 2, some 2))})]]
    (by rfl)

/-- Claim C10.  When `extract_rtvecs` runs with a board and cameras, every
estimated pose — including a failed estimate, the `None` pair — is cached
into the record, so afterwards every record of a processed camera carries
both keys, and any subsequent `extract_rtvecs` call on the mutated groups,
with *any* board/camera arguments (even none at all), returns the same
tensor and groups without ever invoking pose estimation again: a failed
estimate is never retried. -/
theorem extract_rtvecs_caches_poses (merged : List FrameGroup)
    (cn? : Option (List Nat)) (mc : Nat) (bd : BoardR) (cams : List Nat)
    (t : List (List (Option Vec6))) (merged' : List FrameGroup)
    (camNames : List Nat)
    (hres : resolveCamNames cn? merged = Except.ok camNames)
    (h : extractRtvecs merged cn? mc (some bd) (some cams) =
      Except.ok (t, merged')) :
    (∀ g ∈ merged', ∀ c ∈ camNames, ∀ r, groupLookup g c = some r →
      r.rvec.isSome = true ∧ r.tvec.isSome = true)
    ∧ ∀ b?' cams?',
        extractRtvecs merged' cn? mc b?' cams?' = Except.ok (t, merged') := by
  unfold extractRtvecs at h
  rw [hres, exceptBind_ok] at h
  cases hrows : processRowsR (some bd) (some cams) camNames merged with
  | error e =>
    rw [hrows, exceptBind_error] at h
    exact Except.noConfusion h
  | ok pr =>
    obtain ⟨m1, s1⟩ := pr
    rw [hrows, exceptBind_ok] at h
    injection h with h
    rw [Prod.mk.injEq] at h
    obtain ⟨h1, h2⟩ := h
    subst h2
    subst h1
    constructor
    · exact processRowsR_settles (some bd) (some cams) camNames _ _ _ hrows
    · intro b?' cams?'
      have hres2 : resolveCamNames cn? m1 = Except.ok camNames := by
        rw [resolveCamNames_congr cn? m1 merged
          (processRowsR_map_fst (some bd) (some cams) camNames _ _ _ hrows), hres]
      unfold extractRtvecs
      rw [hres2, exceptBind_ok,
        processRowsR_stable (some bd) (some cams) camNames _ _ _ hrows b?' cams?',
        exceptBind_ok]

/-- Witness for C10: a board whose estimate fails (returns the `None`
pair); the record afterwards holds `rvec = tvec = None` under present
keys, and a second call with *no* board at all still succeeds with the
same all-NaN tensor. -/
theorem extract_rtvecs_caches_poses_witness :
    (∀ g ∈ [[(0, {framenum := 0, rvec := some none, tvec := some none})]],
      ∀ c ∈ [0], ∀ r : Row, groupLookup g c = some r →
        r.rvec.isSome = true ∧ r.tvec.isSome = true)
    ∧ ∀ b?' cams?',
        extractRtvecs [[(0, {framenum := 0, rvec := some none, tvec := some none})]]
          (some [0]) 0 b?' cams?' =
        Except.ok ([[none]],
          [[(0, {framenum := 0, rvec := some none, tvec := some none})]]) :=
  extract_rtvecs_caches_poses [[(0, {framenum := 0})]] (some [0]) 0
    ⟨fun _ _ _ => (none, none)⟩ [7] [[none]]
    [[(0, {framenum := 0, rvec := some none, tvec := some none})]] [0]
    (by rfl) (by rfl)

/-- With no board, the only error a cell can raise is the missing-pose
`ValueError`. -/
theorem processCellR_none_error (cams? : Option (List Nat)) (cix : Nat)
    (r : Row) (e : PyErr)
    (h : processCellR none cams? cix r = Except.error e) :
    e = PyErr.valueError := by
  unfold processCellR at h
  split at h
  · injection h with h
    exact h.symm
  · exact Except.noConfusion h

/-- With no board, the only error the camera loop can raise is the
missing-pose `ValueError`. -/
theorem processCellsR_none_error (cams? : Option (List Nat)) (cnames : List Nat) :
    ∀ (cix : Nat) (g : FrameGroup) (e : PyErr),
      processCellsR none cams? cix cnames g = Except.error e →
      e = PyErr.valueError := by
  induction cnames with
  | nil =>
    intro cix g e h
    exact Except.noConfusion h
  | cons c0 rest ih =>
    intro cix g e h
    unfold processCellsR at h
    split at h
    · split at h
      · rename_i hrec
        injection h with h
        subst h
        exact ih _ _ _ hrec
      · exact Except.noConfusion h
    · split at h
      · rename_i hcell
        injection h with h
        subst h
        exact processCellR_none_error cams? cix _ _ hcell
      · rename_i r0' slot0 hcell
        split at h
        · rename_i hrec
          injection h with h
          subst h
          exact ih _ _ _ hrec
        · exact Except.noConfusion h

/-- If some processed camera's record lacks an rvec or tvec key and no
board is available, the camera loop raises the missing-pose `ValueError`. -/
theorem processCellsR_missing_raises (cams? : Option (List Nat))
    (cnames : List Nat) :
    ∀ (cix : Nat) (g : FrameGroup) (c : Nat) (r : Row),
      c ∈ cnames → groupLookup g c = some r →
      (r.rvec = none ∨ r.tvec = none) →
      processCellsR none cams? cix cnames g = Except.error PyErr.valueError := by
  induction cnames with
  | nil =>
    intro cix g c r hc
    exact absurd hc (List.not_mem_nil c)
  | cons c0 rest ih =>
    intro cix g c r hc hr hmiss
    cases hlook : groupLookup g c0 with
    | none =>
      have hne : c ≠ c0 := by
        intro e
        rw [e, hlook] at hr
        exact Option.noConfusion hr
      have hcr : c ∈ rest := (List.mem_cons.mp hc).resolve_left hne
      have ihe := ih (cix + 1) g c r hcr hr hmiss
      simp only [processCellsR, hlook, ihe]
    | some r0 =>
      cases hm0 : (r0.rvec.isNone || r0.tvec.isNone) with
      | true =>
        have hcell : processCellR none cams? cix r0 = Except.error PyErr.valueError := by
          unfold processCellR
          rw [if_pos hm0]
        simp only [processCellsR, hlook, hcell]
      | false =>
        have hcell : processCellR none cams? cix r0 =
            Except.ok (r0, cacheSlot r0) := by
          unfold processCellR
          rw [if_neg (by rw [hm0]; simp)]
        have hne : c ≠ c0 := by
          intro e
          subst e
          rw [hlook] at hr
          injection hr with hreq
          subst hreq
          rw [Bool.or_eq_false_iff] at hm0
          rcases hmiss with hm | hm
          · rw [hm] at hm0
            simp at hm0
          · rw [hm] at hm0
            simp at hm0
        have hcr : c ∈ rest := (List.mem_cons.mp hc).resolve_left hne
        have ihe := ih (cix + 1) g c r hcr hr hmiss
        simp only [processCellsR, hlook, hcell, groupUpdate_self g c0 r0 hlook, ihe]

/-- Row-level lifting: a single record with a missing pose key anywhere in
the merged groups makes the boardless frame loop raise. -/
theorem processRowsR_missing_raises (cams? : Option (List Nat))
    (camNames : List Nat) :
    ∀ (merged : List FrameGroup) (g : FrameGroup) (c : Nat) (r : Row),
      g ∈ merged → c ∈ camNames → groupLookup g c = some r →
      (r.rvec = none ∨ r.tvec = none) →
      processRowsR none cams? camNames merged = Except.error PyErr.valueError := by
  intro merged
  induction merged with
  | nil =>
    intro g c r hg
    exact absurd hg (List.not_mem_nil g)
  | cons g0 rest ih =>
    intro g c r hg hc hr hmiss
    rcases List.mem_cons.mp hg with h0 | hrest
    · subst h0
      have hcells := processCellsR_missing_raises cams? camNames 0 g c r hc hr hmiss
      simp only [processRowsR, hcells]
    · cases hcells : processCellsR none cams? 0 camNames g0 with
      | error e =>
        have he := processCellsR_none_error cams? camNames 0 g0 e hcells
        subst he
        simp only [processRowsR, hcells]
      | ok pr =>
        obtain ⟨g1, s1⟩ := pr
        have ihe := ih g c r hrest hc hr hmiss
        simp only [processRowsR, hcells, ihe]

/-- Claim C3.  When a record of a camera in the resolved camera list lacks
an rvec or tvec entry and no board argument is supplied, `extract_rtvecs`
raises the error the spec calls `ConfigurationError` (a `ValueError` at
runtime) and returns nothing — no partial tensor escapes. -/
theorem extract_rtvecs_config_error (merged : List FrameGroup)
    (cn? : Option (List Nat)) (mc : Nat) (cams? : Option (List Nat))
    (camNames : List Nat) (g : FrameGroup) (c : Nat) (r : Row)
    (hres : resolveCamNames cn? merged = Except.ok camNames)
    (hg : g ∈ merged) (hc : c ∈ camNames)
    (hr : groupLookup g c = some r)
    (hmiss : r.rvec = none ∨ r.tvec = none) :
    extractRtvecs merged cn? mc none cams? = Except.error PyErr.valueError := by
  unfold extractRtvecs
  rw [hres, exceptBind_ok,
    processRowsR_missing_raises cams? camNames merged g c r hg hc hr hmiss,
    exceptBind_error]

/-- Witness for C3: two frames, the second holding a record without pose
keys; auto-resolved camera names. -/
theorem extract_rtvecs_config_error_witness :
    extractRtvecs [[(1, {framenum := 0, rvec := some (some (some 1, some 1, some 1)), tvec := some (some (some 1, some 1, some 1))})], [(1, {framenum := 2})]]
        none 1 none none =
      Except.error PyErr.valueError :=
  extract_rtvecs_config_error
    [[(1, {framenum := 0, rvec := some (some (some 1, some 1, some 1)), tvec := some (some (some 1, some 1, some 1))})], [(1, {framenum := 2})]]
    none 1 none [1] [(1, {framenum := 2})] 1 {framenum := 2}
    (by rfl) (by decide) (by decide) (by rfl) (Or.inl rfl)

/-! ## `fill_points` (boards.py lines 390–400 and 513–520) -/

/-- `get_empty_detection().reshape(-1, 2)`: the all-NaN fixed-length
layout with one slot per board point. -/
def chbEmptyDetection (n : Nat) : List Point2 := List.replicate n nanP2

/-- The scatter loop `for i, cxs in zip(ids, corners): out[i] = cxs`:
sequential writes, an out-of-range identifier raising `IndexError`. -/
def scatterWrites : List (Nat × Point2) → List Point2 → Except PyErr (List Point2)
  | [], out => Except.ok out
  | (i, p) :: rest, out =>
    if i < out.length then scatterWrites rest (out.set i p)
    else Except.error PyErr.indexError

/-- `Checkerboard.fill_points(corners, ids=None)` for a board with `n`
point slots: `corners` `None` or empty yields the all-NaN layout; when
`ids is None` the function returns the *raw* `corners` sequence
unchanged; otherwise the corners are scattered by identifier. -/
def checkerboardFillPoints (n : Nat) (corners : Option (List Point2))
    (ids : Option (List Nat)) : Except PyErr (List Point2) :=
  match corners with
  | none => Except.ok (chbEmptyDetection n)
  | some cs =>
    if cs.length = 0 then Except.ok (chbEmptyDetection n)
    else
      match ids with
      | none => Except.ok cs
      | some l => scatterWrites (l.zip cs) (chbEmptyDetection n)

/-- `CharucoBoard.fill_points(corners, ids)`: same scatter, but `ids` is
mandatory — `ids.ravel()` on `None` raises `AttributeError` whenever
corners are non-empty. -/
def charucoFillPoints (n : Nat) (corners : Option (List Point2))
    (ids : Option (List Nat)) : Except PyErr (List Point2) :=
  match corners with
  | none => Except.ok (chbEmptyDetection n)
  | some cs =>
    if cs.length = 0 then Except.ok (chbEmptyDetection n)
    else
      match ids with
      | none => Except.error PyErr.attributeError
      | some l => scatterWrites (l.zip cs) (chbEmptyDetection n)

/-- The slot content described by the spec: the corner carried by the last
`(id, corner)` pair naming this slot, NaN when no pair names it. -/
def scatterSpec (ids : List Nat) (cs : List Point2) (j : Nat) : Point2 :=
  (((ids.zip cs).filter (fun e => e.1 == j)).getLast?).elim nanP2 Prod.snd

theorem getD_set_self (l : List Point2) (i : Nat) (a d : Point2)
    (h : i < l.length) : (l.set i a).getD i d = a := by
  rw [List.getD_eq_getElem?_getD, List.getElem?_set_self h]
  rfl

theorem getD_set_ne (l : List Point2) (i j : Nat) (a d : Point2)
    (h : i ≠ j) : (l.set i a).getD j d = l.getD j d := by
  rw [List.getD_eq_getElem?_getD, List.getElem?_set_ne h,
    ← List.getD_eq_getElem?_getD]

/-- The scatter loop on in-range writes: the output keeps the base length
and slot `j` holds the last write to `j`, or the base value when `j` was
never written. -/
theorem scatterWrites_ok (writes : List (Nat × Point2)) :
    ∀ out : List Point2, (∀ w ∈ writes, w.1 < out.length) →
      ∃ res, scatterWrites writes out = Except.ok res ∧
        res.length = out.length ∧
        ∀ j, res.getD j nanP2 =
          ((writes.filter (fun w => w.1 == j)).getLast?).elim
            (out.getD j nanP2) Prod.snd := by
  induction writes with
  | nil =>
    intro out hw
    exact ⟨out, rfl, rfl, fun j => rfl⟩
  | cons w rest ih =>
    intro out hw
    obtain ⟨i, p⟩ := w
    have hi : i < out.length := hw (i, p) (List.mem_cons_self _ _)
    obtain ⟨res, hres, hlen, hget⟩ := ih (out.set i p)
      (fun w' hw' => by
        rw [List.length_set]
        exact hw w' (List.mem_cons_of_mem _ hw'))
    refine ⟨res, ?_, by rw [hlen, List.length_set], ?_⟩
    · unfold scatterWrites
      rw [if_pos hi]
      exact hres
    · intro j
      rw [hget j]
      by_cases hij : i = j
      · subst hij
        rw [List.filter_cons_of_pos (by simp)]
        cases hfr : rest.filter (fun w => w.1 == i) with
        | nil =>
          simp only [List.getLast?_nil, List.getLast?_singleton,
            Option.elim_none, Option.elim_some]
          exact getD_set_self out i p nanP2 hi
        | cons x xs =>
          rw [List.getLast?_cons_cons]
          cases hgl : (x :: xs).getLast? with
          | none => simp at hgl
          | some y => rfl
      · have hbij : ((i, p).1 == j) = false := by
          simp only [beq_eq_false_iff_ne, ne_eq]
          exact hij
        rw [List.filter_cons_of_neg (by rw [hbij]; exact Bool.false_ne_true),
          getD_set_ne out i j p nanP2 hij]

theorem getD_replicate_self (n j : Nat) (a : Point2) :
    (List.replicate n a).getD j a = a := by
  induction n generalizing j with
  | zero => rfl
  | succ m ih =>
    cases j with
    | zero => rfl
    | succ k => exact ih k

/-- Counterexample to claim C4 as stated: a 2×2 checkerboard has four
point slots, yet `fill_points` on a single detected corner with absent
identifiers returns the raw one-element corners sequence, not the
fixed-length NaN-padded layout. -/
theorem fill_points_fixed_length_cex :
    (checkerboardFillPoints 4 (some [(some 1, some 2)]) none).toOption.map
        List.length = some 1
    ∧ (chbEmptyDetection 4).length = 4
    ∧ (1 : Nat) ≠ 4 := by
  decide

/-- Claim C4, amended.  `fill_points` returns the all-NaN fixed-length
layout on `None`/empty corners; with identifiers (all within range) it
returns the fixed-length layout with each slot holding the last corner
whose identifier names it, NaN elsewhere; but when identifiers are absent
`Checkerboard.fill_points` returns the corners sequence unchanged (which
matches the claimed identity scatter only when the detection already has
one corner per board slot) and `CharucoBoard.fill_points` fails
(`ids.ravel()` on `None`). -/
theorem fill_points_amended (n : Nat) (cs : List Point2) (ids : List Nat) :
    (∀ ids?, checkerboardFillPoints n none ids? = Except.ok (chbEmptyDetection n))
    ∧ (∀ ids?, checkerboardFillPoints n (some []) ids? = Except.ok (chbEmptyDetection n))
    ∧ (∀ ids?, charucoFillPoints n none ids? = Except.ok (chbEmptyDetection n))
    ∧ (∀ ids?, charucoFillPoints n (some []) ids? = Except.ok (chbEmptyDetection n))
    ∧ (cs ≠ [] → checkerboardFillPoints n (some cs) none = Except.ok cs)
    ∧ (cs ≠ [] → charucoFillPoints n (some cs) none = Except.error PyErr.attributeError)
    ∧ (charucoFillPoints n (some cs) (some ids) = checkerboardFillPoints n (some cs) (some ids))
    ∧ ((∀ i ∈ ids, i < n) →
        ∃ out, checkerboardFillPoints n (some cs) (some ids) = Except.ok out ∧
          out.length = n ∧ ∀ j, out.getD j nanP2 = scatterSpec ids cs j) := by
  refine ⟨fun ids? => rfl, fun ids? => rfl, fun ids? => rfl, fun ids? => rfl,
    ?_, ?_, ?_, ?_⟩
  · intro hcs
    have hne : ¬ cs.length = 0 := fun h => hcs (List.length_eq_zero.mp h)
    simp only [checkerboardFillPoints]
    rw [if_neg hne]
  · intro hcs
    have hne : ¬ cs.length = 0 := fun h => hcs (List.length_eq_zero.mp h)
    simp only [charucoFillPoints]
    rw [if_neg hne]
  · simp only [checkerboardFillPoints, charucoFillPoints]
  · intro hids
    by_cases hcs : cs.length = 0
    · have hnil : cs = [] := List.length_eq_zero.mp hcs
      subst hnil
      refine ⟨chbEmptyDetection n, by simp [checkerboardFillPoints], by
        simp [chbEmptyDetection], ?_⟩
      intro j
      have h1 : (chbEmptyDetection n).getD j nanP2 = nanP2 :=
        getD_replicate_self n j nanP2
      rw [h1]
      unfold scatterSpec
      rw [List.zip_nil_right]
      rfl
    · obtain ⟨res, hres, hlen, hget⟩ := scatterWrites_ok (ids.zip cs)
        (chbEmptyDetection n)
        (fun w hw => by
          obtain ⟨i, p⟩ := w
          have hmem := (List.of_mem_zip hw).1
          simp only [chbEmptyDetection, List.length_replicate]
          exact hids i hmem)
      refine ⟨res, ?_, by rw [hlen]; simp [chbEmptyDetection], ?_⟩
      · simp only [checkerboardFillPoints]
        rw [if_neg hcs]
        exact hres
      · intro j
        have h2 : (chbEmptyDetection n).getD j nanP2 = nanP2 :=
          getD_replicate_self n j nanP2
        rw [hget j, h2]
        rfl

/-- Witness for the amended C4: a four-slot board, two corners scattered
to slots 2 and 0; and the raw-return branch with absent identifiers. -/
theorem fill_points_amended_witness :
    checkerboardFillPoints 4 (some [(some 1, some 2), (some 3, some 4)]) none =
      Except.ok [(some 1, some 2), (some 3, some 4)]
    ∧ ∃ out, checkerboardFillPoints 4
        (some [(some 1, some 2), (some 3, some 4)]) (some [2, 0]) =
          Except.ok out ∧ out.length = 4 ∧
        ∀ j, out.getD j nanP2 =
          scatterSpec [2, 0] [(some 1, some 2), (some 3, some 4)] j :=
  ⟨(fill_points_amended 4 [(some 1, some 2), (some 3, some 4)] [2, 0]).2.2.2.2.1
      (by decide),
    (fill_points_amended 4 [(some 1, some 2), (some 3, some 4)] [2, 0]).2.2.2.2.2.2.2
      (by decide)⟩

/-! ## `Checkerboard.estimate_pose_points` (boards.py lines 426–445) -/

/-- `Checkerboard.estimate_pose_points(self, camera, points, ids=None)`.
Its first statement, `ngood = np.sum(np.isnan(corners)) // 2`, reads the
name `corners`, which is defined neither in the function (the parameter is
named `points`) nor at module scope, so every call raises `NameError`
before the insufficient-data check is evaluated; the later
`cv2.solvePnPRansac(obj_points, corners, ...)` reference is equally
undefined. -/
def checkerboardEstimatePosePoints (camera : Nat)
    (points : Option (List Point2)) (ids : Option (List Nat)) :
    Except PyErr (Option Vec3 × Option Vec3) :=
  Except.error PyErr.nameError

/-- Claim C1 fails on the code: `Checkerboard.estimate_pose_points` raises
`NameError` on every input — including the insufficient-data inputs for
which the spec promises a soft `(None, None)` return — because its body
reads the undefined name `corners`. -/
theorem checkerboard_estimate_pose_raises (camera : Nat)
    (points : Option (List Point2)) (ids : Option (List Nat)) :
    checkerboardEstimatePosePoints camera points ids =
      Except.error PyErr.nameError := rfl
